import Mathlib

/-!
Shallow embedding of the transactional-outbox core of ticketbottle-v2:
the payment webhook intake (signature verification + atomic payment
update / outbox insert), the outbox relay, and the retention sweeper.

Timestamps are modelled as `Nat`.  The store is a pure value of type
`DB` threaded explicitly; Prisma's `$transaction` is modelled as a
function returning `Except`, so a thrown error yields no new state.
HMAC-SHA256 and JSON parsing are external library calls, modelled as
function parameters bundled in `Env`.
-/

/-- Payment status enum (Prisma `PaymentStatus`). -/
inductive PaymentStatus where
  | PENDING
  | COMPLETED
  | FAILED
deriving DecidableEq

/-- A row of the `payment` table. -/
structure Payment where
  id : String
  orderCode : String
  amountCents : Int
  currency : String
  provider : String
  status : PaymentStatus
  providerTransactionId : String
  completedAt : Option Nat
  failedAt : Option Nat
deriving DecidableEq

/-- The payload snapshot written into an outbox row by the intake.
`completed_at` is set for PAYMENT_COMPLETED events, `failed_at` for
PAYMENT_FAILED events. -/
structure OutboxPayload where
  payment_id : String
  order_code : String
  amount_cents : Int
  currency : String
  provider : String
  transaction_id : String
  completed_at : Option Nat
  failed_at : Option Nat
deriving DecidableEq

/-- A row of the `outbox` table. -/
structure OutboxEntry where
  id : Nat
  aggregateId : String
  aggregateType : String
  eventType : String
  payload : OutboxPayload
  published : Bool
  publishedAt : Option Nat
  retryCount : Nat
  lastError : Option String
  createdAt : Nat
deriving DecidableEq

/-- The relational store: payment rows and outbox rows. -/
structure DB where
  payments : List Payment
  outbox : List OutboxEntry
deriving DecidableEq

/-! ### Webhook intake: `handleSuccessPayment` / `handleFailedPayment`

`prisma.payment.update({where:{orderCode}, ...})` throws when no row
matches, which aborts the enclosing `$transaction`; hence the `Except`
result.  On success it returns the updated row, whose fields feed the
outbox payload snapshot. -/

/-- The updated payment row written by `handleSuccessPayment`. -/
def markCompleted (now : Nat) (p : Payment) : Payment :=
  { p with status := PaymentStatus.COMPLETED, completedAt := some now }

/-- The updated payment row written by `handleFailedPayment`. -/
def markFailed (now : Nat) (p : Payment) : Payment :=
  { p with status := PaymentStatus.FAILED, failedAt := some now }

/-- The outbox row inserted by `handleSuccessPayment` (`tx.outbox.create`),
with `p` the updated payment row returned by `tx.payment.update`. -/
def completedOutboxEntry (newId now : Nat) (p : Payment) : OutboxEntry :=
  { id := newId
    aggregateId := p.id
    aggregateType := "Payment"
    eventType := "PAYMENT_COMPLETED"
    payload :=
      { payment_id := p.id
        order_code := p.orderCode
        amount_cents := p.amountCents
        currency := p.currency
        provider := p.provider
        transaction_id := p.providerTransactionId
        completed_at := some now
        failed_at := none }
    published := false
    publishedAt := none
    retryCount := 0
    lastError := none
    createdAt := now }

/-- The outbox row inserted by `handleFailedPayment`. -/
def failedOutboxEntry (newId now : Nat) (p : Payment) : OutboxEntry :=
  { id := newId
    aggregateId := p.id
    aggregateType := "Payment"
    eventType := "PAYMENT_FAILED"
    payload :=
      { payment_id := p.id
        order_code := p.orderCode
        amount_cents := p.amountCents
        currency := p.currency
        provider := p.provider
        transaction_id := p.providerTransactionId
        completed_at := none
        failed_at := some now }
    published := false
    publishedAt := none
    retryCount := 0
    lastError := none
    createdAt := now }

/-- Source: `handleSuccessPayment(orderCode)`: one `$transaction` that updates the
payment row matched by `orderCode` to COMPLETED/`completedAt=now` and
inserts one PAYMENT_COMPLETED outbox row.  An error (no matching row)
aborts the whole transaction, so no new state is produced. -/
def handleSuccessPayment (newId now : Nat) (orderCode : String) (db : DB) :
    Except String DB :=
  match db.payments.find? (fun q => q.orderCode == orderCode) with
  | none => Except.error "Record to update not found."
  | some p0 =>
    let p := markCompleted now p0
    Except.ok
      { payments := db.payments.map (fun q =>
          if q.orderCode == orderCode then markCompleted now q else q)
        outbox := db.outbox ++ [completedOutboxEntry newId now p] }

/-- Source: `handleFailedPayment(orderCode)`: the FAILED counterpart. -/
def handleFailedPayment (newId now : Nat) (orderCode : String) (db : DB) :
    Except String DB :=
  match db.payments.find? (fun q => q.orderCode == orderCode) with
  | none => Except.error "Record to update not found."
  | some p0 =>
    let p := markFailed now p0
    Except.ok
      { payments := db.payments.map (fun q =>
          if q.orderCode == orderCode then markFailed now q else q)
        outbox := db.outbox ++ [failedOutboxEntry newId now p] }

/-! ### Signature verifier

`crypto.createHmac('sha256', key).update(msg).digest('hex')` is an
external library call; it is modelled as the abstract function
`hmacSha256Hex : key → message → hex digest` carried in `Env`, along
with `JSON.parse(data).app_trans_id` (`getAppTransId`) and the two
provider secrets from `process.env` (absent = unset variable). -/

/-- The runtime environment of the webhook lambda. -/
structure Env where
  hmacSha256Hex : String → String → String
  getAppTransId : String → Option String
  zalopayKey2 : Option String
  payosChecksumKey : Option String

/-- Truthiness of a JS string-or-undefined value: `undefined` and `""`
are falsy. -/
def jsFalsy : Option String → Bool
  | none => true
  | some s => s == ""

/-- The provider acknowledgment / error bodies the handler can return. -/
inductive Response where
  | zaloSuccess
  | zaloFail
  | payosSuccess
  | payosInvalidPayload
  | payosInvalidSignature
  | serverError
deriving DecidableEq

/-- Source: `CallbackResult` of the verifier: order code (or absent), outcome
flag, provider response body. -/
structure CallbackResult where
  orderCode : Option String
  success : Bool
  response : Response
deriving DecidableEq

/-- JS `s.split(c)` for a single-character separator: `"" ↦ [""]`,
adjacent separators produce empty chunks. -/
def splitOnChar (c : Char) : List Char → List (List Char)
  | [] => [[]]
  | x :: xs =>
    if x = c then [] :: splitOnChar c xs
    else
      match splitOnChar c xs with
      | [] => [[x]]
      | h :: t => (x :: h) :: t

/-- Source: `dataJson.app_trans_id?.split('_')[1] || dataJson.app_trans_id` on a
present `app_trans_id`: chunk 1 of the underscore split if it exists and
is truthy (non-empty), else the whole value. -/
def zaloOrderCode (s : String) : String :=
  match (splitOnChar '_' s.data).get? 1 with
  | none => s
  | some v => if v = [] then s else String.mk v

/-- Source: `verifyZaloPayCallback`: requires truthy `data` and `mac`; authentic
iff `mac` equals the hex HMAC-SHA256 of `data` under
`process.env.ZALOPAY_KEY2 || ''`.  On authenticity, always reports
success and extracts the order code from `app_trans_id`. -/
def verifyZaloPayCallback (env : Env) (data mac : Option String) :
    CallbackResult :=
  if jsFalsy data || jsFalsy mac then
    { orderCode := none, success := false, response := Response.zaloFail }
  else
    let dataStr := data.getD ""
    let key2 := env.zalopayKey2.getD ""
    let expectedMac := env.hmacSha256Hex key2 dataStr
    if mac.getD "" ≠ expectedMac then
      { orderCode := none, success := false, response := Response.zaloFail }
    else
      { orderCode := (env.getAppTransId dataStr).map zaloOrderCode
        success := true
        response := Response.zaloSuccess }

/-- JS code-unit comparison of strings (`<` / default `.sort()` order),
as a boolean `≤` on the underlying character lists. -/
def lexLe : List Char → List Char → Bool
  | [], _ => true
  | _ :: _, [] => false
  | a :: as, b :: bs =>
    if a.toNat < b.toNat then true
    else if b.toNat < a.toNat then false
    else lexLe as bs

/-- Source: `lexLe` lifted to `String`. -/
def jsStrLe (a b : String) : Bool :=
  lexLe a.data b.data

/-- PayOS canonicalization: `Object.keys(data).sort().map(k =>
k + "=" + data[k]).join('&')`.  The `data` document is an insertion-
ordered list of string key/value pairs. -/
def canonicalPayOS (data : List (String × String)) : String :=
  String.intercalate "&"
    (((data.map Prod.fst).mergeSort jsStrLe).map
      (fun k => k ++ "=" ++ ((data.lookup k).getD "undefined")))

/-- Source: `verifyPayOSCallback`: requires a `data` document and a truthy
`signature`; authentic iff `signature` equals the hex HMAC-SHA256 of the
canonicalized `data` under `process.env.PAYOS_CHECKSUM_KEY || ''`.
Order code from `data.orderCode`; success iff `data.code === '00'`. -/
def verifyPayOSCallback (env : Env) (data : Option (List (String × String)))
    (signature : Option String) : CallbackResult :=
  match data, signature with
  | some d, some sig =>
    if sig == "" then
      { orderCode := none, success := false
        response := Response.payosInvalidPayload }
    else
      let checksumKey := env.payosChecksumKey.getD ""
      let expectedSignature := env.hmacSha256Hex checksumKey (canonicalPayOS d)
      if sig ≠ expectedSignature then
        { orderCode := none, success := false
          response := Response.payosInvalidSignature }
      else
        { orderCode := d.lookup "orderCode"
          success := d.lookup "code" == some "00"
          response := Response.payosSuccess }
  | _, _ =>
    { orderCode := none, success := false
      response := Response.payosInvalidPayload }

/-- A provider callback body, shaped per provider (`data` is a raw string
for ZaloPay, a document for PayOS). -/
inductive CallbackBody where
  | zalo (data mac : Option String)
  | payos (data : Option (List (String × String))) (signature : Option String)

/-- Source: `verifyAndParseCallback`: dispatch on the provider. -/
def verifyAndParseCallback (env : Env) : CallbackBody → CallbackResult
  | CallbackBody.zalo data mac => verifyZaloPayCallback env data mac
  | CallbackBody.payos data signature => verifyPayOSCallback env data signature

/-- Source: `handleCallback` plus the lambda handler's try/catch: verify, and
when an order code resolved (truthy), run the matching intake
transaction; a thrown transaction error is caught by the handler (500
response) and leaves the store unchanged. -/
def handleCallback (env : Env) (newId now : Nat) (body : CallbackBody)
    (db : DB) : Response × DB :=
  let result := verifyAndParseCallback env body
  if jsFalsy result.orderCode then
    (result.response, db)
  else
    let oc := result.orderCode.getD ""
    if result.success then
      match handleSuccessPayment newId now oc db with
      | Except.ok db' => (result.response, db')
      | Except.error _ => (Response.serverError, db)
    else
      match handleFailedPayment newId now oc db with
      | Except.ok db' => (result.response, db')
      | Except.error _ => (Response.serverError, db)


/-! ### Outbox relay (outbox-processor lambda)

The broker (`producer.send`) is external: it is modelled as a function
`pub : OutboxEntry → Bool` (`true` = publish succeeded) plus
`errMsg : OutboxEntry → Option String` (the thrown error's `message`,
`none` = undefined) — both keyed on the snapshot row read in the batch,
exactly as the code closes over `event`. -/

/-- Source: `BATCH_SIZE = 100`. -/
def BATCH_SIZE : Nat := 100

/-- Source: `MAX_RETRIES = 5`. -/
def MAX_RETRIES : Nat := 5

/-- Source: `TOPIC_MAPPING`: static event-type → topic map (with default topic
names). -/
def topicMapping (eventType : String) : Option String :=
  if eventType == "PAYMENT_COMPLETED" then some "payment.completed"
  else if eventType == "PAYMENT_FAILED" then some "payment.failed"
  else none

/-- The relay's batch acquisition: `findMany({where: {published: false,
retryCount: {lt: MAX_RETRIES}}, orderBy: {createdAt: "asc"}, take:
BATCH_SIZE})`. -/
def acquireBatch (outbox : List OutboxEntry) : List OutboxEntry :=
  ((outbox.filter (fun e => !e.published && e.retryCount < MAX_RETRIES)).mergeSort
    (fun a b => a.createdAt ≤ b.createdAt)).take BATCH_SIZE

/-- Source: `error.message?.substring(0, 500) || 'Unknown error'`. -/
def truncatedError : Option String → String
  | none => "Unknown error"
  | some m =>
    if (m.data.take 500) = [] then "Unknown error"
    else String.mk (m.data.take 500)

/-- The row-level write `publishEvent` performs for batch entry `b` on
the stored row `r` matched by `where: {id: b.id}`: unknown event type ⇒
increment `retryCount` and record the error; publish success ⇒ set
`published`/`publishedAt`; publish failure ⇒ increment `retryCount` and
record the truncated error. -/
def publishEventData (pub : OutboxEntry → Bool)
    (errMsg : OutboxEntry → Option String) (now : Nat)
    (b r : OutboxEntry) : OutboxEntry :=
  match topicMapping b.eventType with
  | none =>
    { r with retryCount := r.retryCount + 1
             lastError := some ("Unknown event type: " ++ b.eventType) }
  | some _ =>
    if pub b then
      { r with published := true, publishedAt := some now }
    else
      { r with retryCount := r.retryCount + 1
               lastError := some (truncatedError (errMsg b)) }

/-- Source: `prisma.outbox.update({where: {id: b.id}, data: ...})` for batch
entry `b`: rewrite the row(s) whose id matches `b.id`. -/
def publishEventStep (pub : OutboxEntry → Bool)
    (errMsg : OutboxEntry → Option String) (now : Nat)
    (b : OutboxEntry) (outbox : List OutboxEntry) : List OutboxEntry :=
  outbox.map (fun r =>
    if r.id = b.id then publishEventData pub errMsg now b r else r)

/-- One relay pass: acquire the batch from the current table, then run
`publishEvent` for every batch member (via `Promise.allSettled`, so one
member's failure never stops the others; members touch distinct rows, so
the fan-out is modelled as sequential row updates). -/
def relayPass (pub : OutboxEntry → Bool)
    (errMsg : OutboxEntry → Option String) (now : Nat)
    (outbox : List OutboxEntry) : List OutboxEntry :=
  (acquireBatch outbox).foldl
    (fun acc b => publishEventStep pub errMsg now b acc) outbox

/-! ### Retention sweeper (outbox-cleanup lambda) -/

/-- Source: `RETENTION_DAYS` default. -/
def RETENTION_DAYS : Nat := 7

/-- Is row `e` deleted by the sweep with cutoff `cutoff`
(= now − retention): `published=true AND publishedAt < cutoff`
(a null `publishedAt` never satisfies `lt`)? -/
def sweepable (cutoff : Nat) (e : OutboxEntry) : Bool :=
  e.published &&
    match e.publishedAt with
    | some t => t < cutoff
    | none => false

/-- Source: `deleteOldPublishedEvents`: `deleteMany({where: {published: true,
publishedAt: {lt: cutoff}}})`; returns the remaining table and the
deleted count. -/
def deleteOldPublishedEvents (cutoff : Nat) (outbox : List OutboxEntry) :
    List OutboxEntry × Nat :=
  (outbox.filter (fun e => !sweepable cutoff e),
   (outbox.filter (fun e => sweepable cutoff e)).length)

/-- Source: `monitorFailedEvents`: `findMany({where: {published: false,
retryCount: {gte: MAX_RETRIES}}, orderBy: {createdAt: "desc"}})` — a
read-only report. -/
def monitorFailedEvents (outbox : List OutboxEntry) : List OutboxEntry :=
  (outbox.filter (fun e => !e.published && MAX_RETRIES ≤ e.retryCount)).mergeSort
    (fun a b => b.createdAt ≤ a.createdAt)

/-! ### Operations on the store, for stating cross-pass invariants -/

/-- One store-mutating operation of the system: a success/failure intake
(with the handler's catch making a failed transaction a no-op), a relay
pass, or a retention sweep. -/
inductive Op where
  | intakeOk (newId now : Nat) (orderCode : String)
  | intakeFail (newId now : Nat) (orderCode : String)
  | relay (pub : OutboxEntry → Bool) (errMsg : OutboxEntry → Option String)
      (now : Nat)
  | sweep (cutoff : Nat)

/-- Apply one operation to the store. -/
def applyOp : Op → DB → DB
  | Op.intakeOk newId now oc, db =>
    (handleSuccessPayment newId now oc db).toOption.getD db
  | Op.intakeFail newId now oc, db =>
    (handleFailedPayment newId now oc db).toOption.getD db
  | Op.relay pub errMsg now, db =>
    { db with outbox := relayPass pub errMsg now db.outbox }
  | Op.sweep cutoff, db =>
    { db with outbox := (deleteOldPublishedEvents cutoff db.outbox).1 }

/-- Apply a sequence of operations, oldest first. -/
def applyOps (ops : List Op) (db : DB) : DB :=
  ops.foldl (fun d op => applyOp op d) db

/-- An operation is a relay or sweeper pass (no intake). -/
def isPass : Op → Prop
  | Op.relay _ _ _ => True
  | Op.sweep _ => True
  | _ => False

/-- Freshness of the outbox id an intake operation would allocate
(Prisma generates a fresh cuid for `outbox.create`). -/
def opFresh : Op → DB → Prop
  | Op.intakeOk newId _ _, db => newId ∉ db.outbox.map OutboxEntry.id
  | Op.intakeFail newId _ _, db => newId ∉ db.outbox.map OutboxEntry.id
  | Op.relay _ _ _, _ => True
  | Op.sweep _, _ => True

/-- The accumulated effect of one relay pass on a single stored row `r`:
fold the per-batch-member conditional writes over the batch `L`.
`relayPass` is exactly `map (relayRow pub errMsg now (acquireBatch ob))`
(see `relayPass_eq_map`). -/
def relayRow (pub : OutboxEntry → Bool) (errMsg : OutboxEntry → Option String)
    (now : Nat) (L : List OutboxEntry) (r : OutboxEntry) : OutboxEntry :=
  L.foldl
    (fun r b => if r.id = b.id then publishEventData pub errMsg now b r else r) r

/-! ### Concrete instances used by counterexamples and witnesses -/

/-- A concrete payment row already in the terminal COMPLETED state
(orderCode ORD-1001, completed at time 100). -/
def replayPayment : Payment :=
  { id := "pay1", orderCode := "ORD-1001", amountCents := 5000,
    currency := "VND", provider := "zalopay",
    status := PaymentStatus.COMPLETED, providerTransactionId := "tx1",
    completedAt := some 100, failedAt := none }

/-- The store after the first successful callback for ORD-1001: the
payment is COMPLETED and its PAYMENT_COMPLETED outbox row exists. -/
def replayDb : DB :=
  { payments := [replayPayment],
    outbox := [completedOutboxEntry 1 100 replayPayment] }

/-- A concrete payload snapshot. -/
def samplePayload : OutboxPayload :=
  { payment_id := "pay1", order_code := "ORD-1001", amount_cents := 5000,
    currency := "VND", provider := "zalopay", transaction_id := "tx1",
    completed_at := some 100, failed_at := none }

/-- A concrete outbox row that is already published (publishedAt 5). -/
def publishedEntry : OutboxEntry :=
  { id := 1, aggregateId := "pay1", aggregateType := "Payment",
    eventType := "PAYMENT_COMPLETED", payload := samplePayload,
    published := true, publishedAt := some 5, retryCount := 2,
    lastError := none, createdAt := 0 }

/-- The already-published row after the relay's mark-published write runs
on it again at time 10. -/
def remarkedEntry : OutboxEntry :=
  { publishedEntry with publishedAt := some 10 }

/-- A concrete unpublished outbox row (retryCount 0). -/
def pendingEntry : OutboxEntry :=
  { id := 2, aggregateId := "pay1", aggregateType := "Payment",
    eventType := "PAYMENT_COMPLETED", payload := samplePayload,
    published := false, publishedAt := none, retryCount := 0,
    lastError := none, createdAt := 3 }

/-- A second concrete unpublished outbox row (unknown event type,
retryCount 1, later createdAt). -/
def pendingEntry2 : OutboxEntry :=
  { id := 3, aggregateId := "pay2", aggregateType := "Payment",
    eventType := "PAYMENT_FAILED", payload := samplePayload,
    published := false, publishedAt := none, retryCount := 1,
    lastError := none, createdAt := 9 }

/-- The row `pendingEntry` after a failed publish attempt recording
"broker down". -/
def failedPendingEntry : OutboxEntry :=
  { pendingEntry with retryCount := 1, lastError := some "broker down" }

/-- A concrete stuck outbox row (`retryCount = MAX_RETRIES`). -/
def stuckEntry : OutboxEntry :=
  { id := 4, aggregateId := "pay3", aggregateType := "Payment",
    eventType := "PAYMENT_FAILED", payload := samplePayload,
    published := false, publishedAt := none, retryCount := 5,
    lastError := some "broker unreachable", createdAt := 1 }

/-- A concrete environment whose HMAC always returns "MAC" and whose
parsed `app_trans_id` is the doubly-underscored "250101_ORD_1001". -/
def envDoubleUnderscore : Env :=
  { hmacSha256Hex := fun _ _ => "MAC"
    getAppTransId := fun _ => some "250101_ORD_1001"
    zalopayKey2 := some "k2"
    payosChecksumKey := some "ck" }

/-- A concrete environment with both provider secrets unset, whose
abstract HMAC is injective in the key (key ++ ":" ++ message). -/
def envNoSecrets : Env :=
  { hmacSha256Hex := fun k m => k ++ ":" ++ m
    getAppTransId := fun _ => some "250101_ORD-1001"
    zalopayKey2 := none
    payosChecksumKey := none }

/-- A concrete environment with secrets set, HMAC = key ++ ":" ++ message,
`app_trans_id` = "250101_ORD-1001". -/
def envWithSecrets : Env :=
  { hmacSha256Hex := fun k m => k ++ ":" ++ m
    getAppTransId := fun _ => some "250101_ORD-1001"
    zalopayKey2 := some "k2"
    payosChecksumKey := some "ck" }

/-- A concrete PENDING payment for ORD-1001. -/
def pendingPayment : Payment :=
  { id := "pay1", orderCode := "ORD-1001", amountCents := 5000,
    currency := "VND", provider := "zalopay",
    status := PaymentStatus.PENDING, providerTransactionId := "tx1",
    completedAt := none, failedAt := none }

/-- A store with one PENDING payment for ORD-1001 and an empty outbox. -/
def pendingDb : DB :=
  { payments := [pendingPayment], outbox := [] }

/-- The store produced from `pendingDb` by a successful intake at time 9
with outbox id 7. -/
def mutatedDb : DB :=
  { payments := [markCompleted 9 pendingPayment],
    outbox := [completedOutboxEntry 7 9 (markCompleted 9 pendingPayment)] }

/-! ## Helper lemmas -/

theorem foldl_map_step {α β : Type} (g : β → α → α) :
    ∀ (L : List β) (ob : List α),
      L.foldl (fun acc b => acc.map (g b)) ob =
        ob.map (fun r => L.foldl (fun r b => g b r) r)
  | [], ob => by simp
  | b :: L, ob => by
    simp only [List.foldl_cons]
    rw [foldl_map_step g L (ob.map (g b)), List.map_map]
    rfl

theorem relayPass_eq_map (pub : OutboxEntry → Bool)
    (errMsg : OutboxEntry → Option String) (now : Nat)
    (ob : List OutboxEntry) :
    relayPass pub errMsg now ob =
      ob.map (relayRow pub errMsg now (acquireBatch ob)) := by
  unfold relayPass relayRow publishEventStep
  exact foldl_map_step _ _ _

theorem publishEventData_id (pub : OutboxEntry → Bool)
    (em : OutboxEntry → Option String) (now : Nat) (b r : OutboxEntry) :
    (publishEventData pub em now b r).id = r.id := by
  unfold publishEventData
  cases topicMapping b.eventType with
  | none => rfl
  | some t => by_cases hp : pub b = true <;> simp [hp]

theorem publishEventData_retry_mono (pub : OutboxEntry → Bool)
    (em : OutboxEntry → Option String) (now : Nat) (b r : OutboxEntry) :
    r.retryCount ≤ (publishEventData pub em now b r).retryCount := by
  unfold publishEventData
  cases topicMapping b.eventType with
  | none => exact Nat.le_succ _
  | some t =>
    by_cases hp : pub b = true <;> simp [hp]

theorem publishEventData_pubAt (pub : OutboxEntry → Bool)
    (em : OutboxEntry → Option String) (now : Nat) (b r : OutboxEntry)
    (h : r.published = true → r.publishedAt ≠ none) :
    (publishEventData pub em now b r).published = true →
      (publishEventData pub em now b r).publishedAt ≠ none := by
  unfold publishEventData
  cases topicMapping b.eventType with
  | none => exact h
  | some t =>
    by_cases hp : pub b = true <;> simp [hp]
    exact h

theorem relayRow_cons (pub : OutboxEntry → Bool)
    (em : OutboxEntry → Option String) (now : Nat) (b : OutboxEntry)
    (L : List OutboxEntry) (r : OutboxEntry) :
    relayRow pub em now (b :: L) r =
      relayRow pub em now L
        (if r.id = b.id then publishEventData pub em now b r else r) := rfl

theorem relayRow_id (pub : OutboxEntry → Bool)
    (em : OutboxEntry → Option String) (now : Nat) :
    ∀ (L : List OutboxEntry) (r : OutboxEntry),
      (relayRow pub em now L r).id = r.id
  | [], r => rfl
  | b :: L, r => by
    rw [relayRow_cons]
    by_cases h : r.id = b.id
    · rw [if_pos h, relayRow_id pub em now L, publishEventData_id, h]
    · rw [if_neg h, relayRow_id pub em now L]

theorem relayRow_eq_self (pub : OutboxEntry → Bool)
    (em : OutboxEntry → Option String) (now : Nat) :
    ∀ (L : List OutboxEntry) (r : OutboxEntry),
      (∀ b ∈ L, b.id ≠ r.id) → relayRow pub em now L r = r
  | [], r, _ => rfl
  | b :: L, r, h => by
    rw [relayRow_cons,
      if_neg (fun hr => h b (List.mem_cons_self b L) hr.symm)]
    exact relayRow_eq_self pub em now L r
      (fun x hx => h x (List.mem_cons_of_mem b hx))

theorem relayRow_retry_mono (pub : OutboxEntry → Bool)
    (em : OutboxEntry → Option String) (now : Nat) :
    ∀ (L : List OutboxEntry) (r : OutboxEntry),
      r.retryCount ≤ (relayRow pub em now L r).retryCount
  | [], r => Nat.le_refl _
  | b :: L, r => by
    rw [relayRow_cons]
    by_cases h : r.id = b.id
    · rw [if_pos h]
      exact Nat.le_trans (publishEventData_retry_mono pub em now b r)
        (relayRow_retry_mono pub em now L _)
    · rw [if_neg h]
      exact relayRow_retry_mono pub em now L r

theorem relayRow_pubAt (pub : OutboxEntry → Bool)
    (em : OutboxEntry → Option String) (now : Nat) :
    ∀ (L : List OutboxEntry) (r : OutboxEntry),
      (r.published = true → r.publishedAt ≠ none) →
      (relayRow pub em now L r).published = true →
        (relayRow pub em now L r).publishedAt ≠ none
  | [], r, h => h
  | b :: L, r, h => by
    rw [relayRow_cons]
    by_cases hid : r.id = b.id
    · rw [if_pos hid]
      exact relayRow_pubAt pub em now L _
        (publishEventData_pubAt pub em now b r h)
    · rw [if_neg hid]
      exact relayRow_pubAt pub em now L r h

theorem relayRow_single (pub : OutboxEntry → Bool)
    (em : OutboxEntry → Option String) (now : Nat) :
    ∀ (L : List OutboxEntry) (b : OutboxEntry),
      L.Pairwise (fun a b => a.id ≠ b.id) → b ∈ L →
      relayRow pub em now L b = publishEventData pub em now b b
  | [], b, _, hb => absurd hb (List.not_mem_nil b)
  | x :: L, b, hL, hb => by
    rcases List.mem_cons.mp hb with rfl | hbL
    · rw [relayRow_cons, if_pos rfl]
      refine relayRow_eq_self pub em now L _ (fun y hy => ?_)
      rw [publishEventData_id]
      exact (List.rel_of_pairwise_cons hL hy).symm
    · have hxb : x.id ≠ b.id := List.rel_of_pairwise_cons hL hbL
      rw [relayRow_cons, if_neg (fun h => hxb h.symm)]
      exact relayRow_single pub em now L b (List.Pairwise.of_cons hL) hbL

theorem length_filter_not_add {α : Type} (p : α → Bool) :
    ∀ l : List α,
      (l.filter (fun a => !p a)).length + (l.filter (fun a => p a)).length =
        l.length
  | [] => rfl
  | x :: l => by
    have ih := length_filter_not_add p l
    cases hx : p x <;> simp [List.filter_cons, hx] <;> omega

theorem acquireBatch_mem {ob : List OutboxEntry} {e : OutboxEntry}
    (h : e ∈ acquireBatch ob) :
    e ∈ ob ∧ e.published = false ∧ e.retryCount < MAX_RETRIES := by
  unfold acquireBatch at h
  have h1 := (List.take_sublist _ _).subset h
  have h2 := ((List.mergeSort_perm _ _).mem_iff).mp h1
  have h3 := List.mem_filter.mp h2
  have h4 := h3.2
  simp only [Bool.and_eq_true, Bool.not_eq_true', decide_eq_true_eq] at h4
  exact ⟨h3.1, h4.1, h4.2⟩

theorem acquireBatch_sorted (ob : List OutboxEntry) :
    (acquireBatch ob).Pairwise (fun a b => a.createdAt ≤ b.createdAt) := by
  unfold acquireBatch
  apply List.Pairwise.sublist (List.take_sublist _ _)
  have hs := @List.sorted_mergeSort OutboxEntry
    (fun a b => decide (a.createdAt ≤ b.createdAt))
    (fun a b c hab hbc => by
      simp only [decide_eq_true_eq] at *
      exact Nat.le_trans hab hbc)
    (fun a b => by
      simp only [Bool.or_eq_true, decide_eq_true_eq]
      exact Nat.le_total _ _)
    (ob.filter (fun e => !e.published && e.retryCount < MAX_RETRIES))
  exact hs.imp (fun h => by simpa using h)

theorem acquireBatch_ids_nodup {ob : List OutboxEntry}
    (h : (ob.map OutboxEntry.id).Nodup) :
    ((acquireBatch ob).map OutboxEntry.id).Nodup := by
  unfold acquireBatch
  apply List.Sublist.nodup (List.Sublist.map _ (List.take_sublist _ _))
  have h1 : ((ob.filter
      (fun e => !e.published && e.retryCount < MAX_RETRIES)).map
        OutboxEntry.id).Nodup :=
    ((List.filter_sublist ob).map OutboxEntry.id).nodup h
  exact (((List.mergeSort_perm _ _).map OutboxEntry.id).symm).nodup h1

theorem acquireBatch_pairwise_ne {ob : List OutboxEntry}
    (h : (ob.map OutboxEntry.id).Nodup) :
    (acquireBatch ob).Pairwise (fun a b => a.id ≠ b.id) :=
  List.pairwise_map.mp (acquireBatch_ids_nodup h)

/-! ## C6: relay batch selection -/

/-- C6: every relay batch acquisition returns at most 100 entries, all
satisfying published=false and retryCount < MAX_RETRIES (5), ordered by
createdAt ascending; in particular no entry with retryCount ≥
MAX_RETRIES is ever returned in a relay batch. -/
theorem relay_batch_bounded_filtered_ordered (ob : List OutboxEntry) :
    (acquireBatch ob).length ≤ 100 ∧
    (∀ e ∈ acquireBatch ob,
        e.published = false ∧ e.retryCount < MAX_RETRIES) ∧
    (acquireBatch ob).Pairwise (fun a b => a.createdAt ≤ b.createdAt) ∧
    (∀ e ∈ acquireBatch ob, ¬ MAX_RETRIES ≤ e.retryCount) := by
  refine ⟨List.length_take_le _ _,
    fun e he => (acquireBatch_mem he).2,
    acquireBatch_sorted ob,
    fun e he => Nat.not_le.mpr (acquireBatch_mem he).2.2⟩

unseal List.merge List.mergeSort in
theorem relay_batch_bounded_filtered_ordered_witness :
    pendingEntry ∈ acquireBatch [pendingEntry, stuckEntry] ∧
    stuckEntry ∉ acquireBatch [pendingEntry, stuckEntry] ∧
    (pendingEntry.published = false ∧
      pendingEntry.retryCount < MAX_RETRIES) :=
  ⟨by decide, by decide,
    (relay_batch_bounded_filtered_ordered [pendingEntry, stuckEntry]).2.1
      pendingEntry (by decide)⟩

/-! ## C9: retention sweeper -/

theorem sweepable_iff (cutoff : Nat) (e : OutboxEntry) :
    sweepable cutoff e = true ↔
      e.published = true ∧ ∃ t, e.publishedAt = some t ∧ t < cutoff := by
  unfold sweepable
  cases hpa : e.publishedAt with
  | none => simp [hpa]
  | some t => simp [hpa]

/-- C9: each sweeper run deletes exactly the rows with published=true and
publishedAt older than the cutoff (now − retention window) and returns
the count deleted (so an immediate second run deletes zero), while the
stuck-report returns exactly the rows with published=false and
retryCount ≥ MAX_RETRIES and deletes none of them (they all survive the
sweep; `monitorFailedEvents` is a pure query). -/
theorem sweeper_exact_deletion_and_stuck_report (cutoff : Nat)
    (ob : List OutboxEntry) :
    (∀ e, e ∈ (deleteOldPublishedEvents cutoff ob).1 ↔
        e ∈ ob ∧
          ¬(e.published = true ∧ ∃ t, e.publishedAt = some t ∧ t < cutoff)) ∧
    (deleteOldPublishedEvents cutoff ob).2 =
      ob.length - (deleteOldPublishedEvents cutoff ob).1.length ∧
    deleteOldPublishedEvents cutoff (deleteOldPublishedEvents cutoff ob).1 =
      ((deleteOldPublishedEvents cutoff ob).1, 0) ∧
    (∀ e, e ∈ monitorFailedEvents ob ↔
        e ∈ ob ∧ e.published = false ∧ MAX_RETRIES ≤ e.retryCount) ∧
    (∀ e ∈ ob, e.published = false → MAX_RETRIES ≤ e.retryCount →
        e ∈ (deleteOldPublishedEvents cutoff ob).1) := by
  refine ⟨?_, ?_, ?_, ?_, ?_⟩
  · intro e
    unfold deleteOldPublishedEvents
    rw [List.mem_filter]
    constructor
    · rintro ⟨hm, hs⟩
      refine ⟨hm, fun hc => ?_⟩
      rw [Bool.not_eq_true'] at hs
      rw [(sweepable_iff cutoff e).mpr hc] at hs
      cases hs
    · rintro ⟨hm, hc⟩
      refine ⟨hm, ?_⟩
      rw [Bool.not_eq_true']
      cases hs : sweepable cutoff e
      · rfl
      · exact absurd ((sweepable_iff cutoff e).mp hs) hc
  · show (ob.filter (fun e => sweepable cutoff e)).length =
      ob.length - (ob.filter (fun e => !sweepable cutoff e)).length
    have h := length_filter_not_add (fun e => sweepable cutoff e) ob
    omega
  · unfold deleteOldPublishedEvents
    rw [List.filter_filter, List.filter_filter]
    congr 1
    · apply List.filter_congr
      intro x _
      cases sweepable cutoff x <;> rfl
    · rw [show (fun a => sweepable cutoff a && !sweepable cutoff a) =
          (fun _ : OutboxEntry => false) by
        funext a; cases sweepable cutoff a <;> rfl]
      simp
  · intro e
    unfold monitorFailedEvents
    rw [(List.mergeSort_perm _ _).mem_iff, List.mem_filter]
    simp only [Bool.and_eq_true, Bool.not_eq_true', decide_eq_true_eq]
  · intro e hm hpub _
    unfold deleteOldPublishedEvents
    rw [List.mem_filter]
    refine ⟨hm, ?_⟩
    rw [Bool.not_eq_true']
    unfold sweepable
    rw [hpub]
    rfl

unseal List.merge List.mergeSort in
theorem sweeper_exact_deletion_and_stuck_report_witness :
    publishedEntry ∉
      (deleteOldPublishedEvents 10 [publishedEntry, stuckEntry]).1 ∧
    stuckEntry ∈ (deleteOldPublishedEvents 10 [publishedEntry, stuckEntry]).1 ∧
    stuckEntry ∈ monitorFailedEvents [publishedEntry, stuckEntry] :=
  ⟨fun hmem =>
      (((sweeper_exact_deletion_and_stuck_report 10
          [publishedEntry, stuckEntry]).1 publishedEntry).mp hmem).2
        ⟨by decide, 5, by decide, by decide⟩,
    (sweeper_exact_deletion_and_stuck_report 10
        [publishedEntry, stuckEntry]).2.2.2.2 stuckEntry (by decide) (by decide)
        (by decide),
    ((sweeper_exact_deletion_and_stuck_report 10
        [publishedEntry, stuckEntry]).2.2.2.1 stuckEntry).mpr
      ⟨by decide, by decide, by decide⟩⟩

/-! ## C1: intake atomicity -/

/-- C1: for an authenticated callback with a resolved order code, the
payment-row update and the single OutboxEntry insert are one atomic
transaction: on commit the new store carries exactly both changes (the
matched payment row set to its terminal status and timestamp, exactly
one outbox row appended with published=false, retryCount=0 and the
payload snapshot of payment id, order code, amount, currency, provider,
transaction id and terminal timestamp); if the transaction errors, the
handler answers 500 and the visible store is unchanged. -/
theorem intake_atomic_both_or_neither (env : Env) (newId now : Nat)
    (oc : String) (db : DB) (hoc : oc ≠ "") :
    (∀ db', handleSuccessPayment newId now oc db = Except.ok db' →
      ∃ p0, db.payments.find? (fun q => q.orderCode == oc) = some p0 ∧
        db' = { payments := db.payments.map (fun q =>
                  if q.orderCode == oc then markCompleted now q else q),
                outbox := db.outbox ++
                  [completedOutboxEntry newId now (markCompleted now p0)] }) ∧
    (∀ db', handleFailedPayment newId now oc db = Except.ok db' →
      ∃ p0, db.payments.find? (fun q => q.orderCode == oc) = some p0 ∧
        db' = { payments := db.payments.map (fun q =>
                  if q.orderCode == oc then markFailed now q else q),
                outbox := db.outbox ++
                  [failedOutboxEntry newId now (markFailed now p0)] }) ∧
    (∀ body, (verifyAndParseCallback env body).orderCode = some oc →
      (∀ err, (verifyAndParseCallback env body).success = true →
        handleSuccessPayment newId now oc db = Except.error err →
        handleCallback env newId now body db = (Response.serverError, db)) ∧
      (∀ err, (verifyAndParseCallback env body).success = false →
        handleFailedPayment newId now oc db = Except.error err →
        handleCallback env newId now body db = (Response.serverError, db))) := by
  have hbeq : (oc == "") = false := by
    cases h : oc == "" with
    | false => rfl
    | true => exact absurd (by simpa using h) hoc
  refine ⟨?_, ?_, ?_⟩
  · intro db' h
    unfold handleSuccessPayment at h
    cases hf : db.payments.find? (fun q => q.orderCode == oc) with
    | none => rw [hf] at h; cases h
    | some p0 =>
      rw [hf] at h
      refine ⟨p0, rfl, ?_⟩
      cases h
      rfl
  · intro db' h
    unfold handleFailedPayment at h
    cases hf : db.payments.find? (fun q => q.orderCode == oc) with
    | none => rw [hf] at h; cases h
    | some p0 =>
      rw [hf] at h
      refine ⟨p0, rfl, ?_⟩
      cases h
      rfl
  · intro body hoc'
    constructor
    · intro err hsucc herr
      unfold handleCallback
      simp [hoc', hsucc, herr, jsFalsy, hbeq]
    · intro err hsucc herr
      unfold handleCallback
      simp [hoc', hsucc, herr, jsFalsy, hbeq]

theorem intake_atomic_both_or_neither_witness :
    "ORD-1001" ≠ "" ∧
    (∃ p0, pendingDb.payments.find? (fun q => q.orderCode == "ORD-1001") =
        some p0 ∧
      ({ payments := [markCompleted 9 pendingPayment],
         outbox := [completedOutboxEntry 7 9 (markCompleted 9 pendingPayment)] } :
          DB) =
        { payments := pendingDb.payments.map (fun q =>
            if q.orderCode == "ORD-1001" then markCompleted 9 q else q),
          outbox := pendingDb.outbox ++
            [completedOutboxEntry 7 9 (markCompleted 9 p0)] }) :=
  ⟨by decide,
    (intake_atomic_both_or_neither envWithSecrets 7 9 "ORD-1001" pendingDb
        (by decide)).1
      { payments := [markCompleted 9 pendingPayment],
        outbox := [completedOutboxEntry 7 9 (markCompleted 9 pendingPayment)] }
      (by rfl)⟩

/-! ## C2: missing idempotency on replayed callbacks (code bug) -/

/-- C2 (code bug): the intake has no terminal-state check.  Replaying a
success callback for ORD-1001 — whose payment is already COMPLETED with
one PAYMENT_COMPLETED outbox row — unconditionally re-updates the
payment row (rewriting completedAt from 100 to 200) and inserts a second
OutboxEntry, instead of the skipped no-op the spec requires. -/
theorem replayed_callback_duplicates_outbox :
    handleSuccessPayment 2 200 "ORD-1001" replayDb =
      Except.ok
        { payments := [{ replayPayment with completedAt := some 200 }],
          outbox := [completedOutboxEntry 1 100 replayPayment,
            completedOutboxEntry 2 200
              { replayPayment with completedAt := some 200 }] } ∧
    ((handleSuccessPayment 2 200 "ORD-1001" replayDb).toOption.map
        (fun db => (db.outbox.length, db.payments.map Payment.completedAt))) =
      some (2, [some 200]) := by
  exact ⟨rfl, rfl⟩

/-! ## C3: ZaloPay verifier authenticity -/

theorem verifyZalo_success_iff (env : Env) (data mac : Option String) :
    (verifyZaloPayCallback env data mac).success = true ↔
      jsFalsy data = false ∧ jsFalsy mac = false ∧
        mac.getD "" =
          env.hmacSha256Hex (env.zalopayKey2.getD "") (data.getD "") := by
  cases hd : jsFalsy data with
  | true => simp [verifyZaloPayCallback, hd]
  | false =>
    cases hm : jsFalsy mac with
    | true => simp [verifyZaloPayCallback, hd, hm]
    | false =>
      by_cases hv : mac.getD "" =
          env.hmacSha256Hex (env.zalopayKey2.getD "") (data.getD "") <;>
        simp [verifyZaloPayCallback, hd, hm, hv]

theorem verifyZalo_fail_shape (env : Env) (data mac : Option String)
    (hsf : (verifyZaloPayCallback env data mac).success = false) :
    verifyZaloPayCallback env data mac =
      { orderCode := none, success := false,
        response := Response.zaloFail } := by
  cases hd : jsFalsy data with
  | true => simp [verifyZaloPayCallback, hd]
  | false =>
    cases hm : jsFalsy mac with
    | true => simp [verifyZaloPayCallback, hd, hm]
    | false =>
      by_cases hv : mac.getD "" =
          env.hmacSha256Hex (env.zalopayKey2.getD "") (data.getD "")
      · rw [verifyZaloPayCallback] at hsf
        simp [hd, hm, hv] at hsf
      · simp [verifyZaloPayCallback, hd, hm, hv]

theorem verifyZalo_success_shape (env : Env) (data mac : Option String)
    (hd : jsFalsy data = false) (hm : jsFalsy mac = false)
    (hv : mac.getD "" =
      env.hmacSha256Hex (env.zalopayKey2.getD "") (data.getD "")) :
    verifyZaloPayCallback env data mac =
      { orderCode := (env.getAppTransId (data.getD "")).map zaloOrderCode,
        success := true, response := Response.zaloSuccess } := by
  simp [verifyZaloPayCallback, hd, hm, hv]

theorem handleCallback_zalo_fail (env : Env) (data mac : Option String)
    (newId now : Nat) (db : DB)
    (hsf : (verifyZaloPayCallback env data mac).success = false) :
    handleCallback env newId now (CallbackBody.zalo data mac) db =
      (Response.zaloFail, db) := by
  have hres := verifyZalo_fail_shape env data mac hsf
  unfold handleCallback verifyAndParseCallback
  simp [hres, jsFalsy]

/-- C3: the ZaloPay verifier reports authentic iff the body carries a
truthy `data` string and a truthy `mac` and the hex HMAC-SHA256 of
`data` under the shared key equals `mac`; when `data` or `mac` is
missing or the MAC mismatches, the result is unauthenticated (orderCode
absent, response {return_code:-1}) and the handler mutates no state
(the store is returned unchanged). -/
theorem zalo_verifier_authentic_iff (env : Env) (data mac : Option String) :
    ((verifyZaloPayCallback env data mac).success = true ↔
      jsFalsy data = false ∧ jsFalsy mac = false ∧
        mac.getD "" =
          env.hmacSha256Hex (env.zalopayKey2.getD "") (data.getD "")) ∧
    ((verifyZaloPayCallback env data mac).success = false →
      verifyZaloPayCallback env data mac =
        { orderCode := none, success := false,
          response := Response.zaloFail }) ∧
    (∀ newId now db, (verifyZaloPayCallback env data mac).success = false →
      handleCallback env newId now (CallbackBody.zalo data mac) db =
        (Response.zaloFail, db)) :=
  ⟨verifyZalo_success_iff env data mac,
    verifyZalo_fail_shape env data mac,
    fun newId now db hsf => handleCallback_zalo_fail env data mac newId now db hsf⟩

theorem zalo_verifier_authentic_iff_witness :
    (verifyZaloPayCallback envWithSecrets (some "d") (some "k2:d")).success =
      true ∧
    handleCallback envWithSecrets 7 9
        (CallbackBody.zalo (some "d") (some "bad")) pendingDb =
      (Response.zaloFail, pendingDb) :=
  ⟨(zalo_verifier_authentic_iff envWithSecrets (some "d")
      (some "k2:d")).1.mpr ⟨by decide, by decide, by decide⟩,
    (zalo_verifier_authentic_iff envWithSecrets (some "d") (some "bad")).2.2
      7 9 pendingDb (by decide)⟩

/-! ## C4: ZaloPay order-code extraction (corrected) -/

theorem splitOnChar_not_mem (c : Char) :
    ∀ s : List Char, c ∉ s → splitOnChar c s = [s]
  | [], _ => rfl
  | x :: xs, h => by
    have hx : x ≠ c := fun hxc => h (hxc ▸ List.mem_cons_self x xs)
    simp [splitOnChar, hx,
      splitOnChar_not_mem c xs (fun hc => h (List.mem_cons_of_mem x hc))]

theorem splitOnChar_head (c : Char) :
    ∀ s : List Char, ∃ t,
      splitOnChar c s = s.takeWhile (fun x => x != c) :: t
  | [] => ⟨[], rfl⟩
  | x :: xs => by
    by_cases hx : x = c
    · subst hx
      refine ⟨splitOnChar x xs, ?_⟩
      simp [splitOnChar, List.takeWhile_cons]
    · obtain ⟨t, ht⟩ := splitOnChar_head c xs
      refine ⟨t, ?_⟩
      simp [splitOnChar, ht, List.takeWhile_cons, hx]

theorem splitOnChar_append (c : Char) :
    ∀ p q : List Char, c ∉ p →
      splitOnChar c (p ++ c :: q) = p :: splitOnChar c q
  | [], q, _ => by
    simp [splitOnChar]
  | x :: p, q, h => by
    have hx : x ≠ c := fun hxc => h (hxc ▸ List.mem_cons_self x p)
    rw [List.cons_append]
    simp [splitOnChar, hx,
      splitOnChar_append c p q (fun hc => h (List.mem_cons_of_mem x hc))]

/-- C4 counterexample: for a composite field with more than one
underscore — app_trans_id "250101_ORD_1001" — the extraction yields
"ORD" (JS split yields the chunk between the first and second
underscore), not the claimed substring after the first underscore
"ORD_1001"; the same value flows out of the full verifier. -/
theorem zalo_order_code_counterexample :
    zaloOrderCode "250101_ORD_1001" = "ORD" ∧
    zaloOrderCode "250101_ORD_1001" ≠ "ORD_1001" ∧
    (verifyZaloPayCallback envDoubleUnderscore (some "d")
        (some "MAC")).orderCode = some "ORD" :=
  ⟨by decide, by decide, by decide⟩

/-- C4 amended: for an authentic ZaloPay callback the extracted order
code equals the chunk of the composite transaction-id field strictly
between the first underscore and the next underscore (the remainder if
no second underscore exists) when the field contains an underscore and
that chunk is non-empty; when the chunk is empty (JS falsy) or the field
contains no underscore, the whole field value is used. -/
theorem zalo_order_code_amended (p q : List Char) (hp : '_' ∉ p) :
    (zaloOrderCode (String.mk (p ++ '_' :: q)) =
      if q.takeWhile (fun x => x != '_') = []
      then String.mk (p ++ '_' :: q)
      else String.mk (q.takeWhile (fun x => x != '_'))) ∧
    (∀ s : List Char, '_' ∉ s → zaloOrderCode (String.mk s) = String.mk s) := by
  constructor
  · unfold zaloOrderCode
    rw [show (String.mk (p ++ '_' :: q)).data = p ++ '_' :: q from rfl,
      splitOnChar_append '_' p q hp]
    obtain ⟨t, ht⟩ := splitOnChar_head '_' q
    rw [ht]
    rfl
  · intro s hs
    unfold zaloOrderCode
    rw [show (String.mk s).data = s from rfl, splitOnChar_not_mem '_' s hs]
    rfl

theorem zalo_order_code_amended_witness :
    '_' ∉ "250101".data ∧
    zaloOrderCode (String.mk ("250101".data ++ '_' :: "ORD_1001".data)) =
      (if "ORD_1001".data.takeWhile (fun x => x != '_') = []
       then String.mk ("250101".data ++ '_' :: "ORD_1001".data)
       else String.mk ("ORD_1001".data.takeWhile (fun x => x != '_'))) :=
  ⟨by decide,
    (zalo_order_code_amended "250101".data "ORD_1001".data (by decide)).1⟩

/-! ## C5: PayOS canonicalization is order-independent -/

theorem string_ext {a b : String} (h : a.data = b.data) : a = b := by
  cases a
  cases b
  exact congrArg String.mk h

theorem char_eq_of_toNat_eq {a b : Char} (h : a.toNat = b.toNat) : a = b := by
  apply Char.ext
  apply UInt32.ext
  simpa [Char.toNat] using h

theorem lexLe_total : ∀ a b : List Char, lexLe a b = true ∨ lexLe b a = true
  | [], _ => Or.inl rfl
  | _ :: _, [] => Or.inr rfl
  | a :: as, b :: bs => by
    by_cases h1 : a.toNat < b.toNat
    · exact Or.inl (by simp [lexLe, h1])
    · by_cases h2 : b.toNat < a.toNat
      · exact Or.inr (by simp [lexLe, h2])
      · rcases lexLe_total as bs with h | h
        · exact Or.inl (by simp [lexLe, h1, h2, h])
        · exact Or.inr (by simp [lexLe, h1, h2, h])

theorem lexLe_trans : ∀ a b c : List Char,
    lexLe a b = true → lexLe b c = true → lexLe a c = true
  | [], _, _, _, _ => rfl
  | _ :: _, [], _, hab, _ => by cases hab
  | _ :: _, _ :: _, [], _, hbc => by cases hbc
  | a :: as, b :: bs, c :: cs, hab, hbc => by
    simp only [lexLe] at hab hbc ⊢
    by_cases h1 : a.toNat < b.toNat
    · have hbc' : b.toNat ≤ c.toNat := by
        by_cases h2 : b.toNat < c.toNat
        · omega
        · by_cases h3 : c.toNat < b.toNat
          · simp [h2, h3] at hbc
          · omega
      have hac : a.toNat < c.toNat := by omega
      simp [hac]
    · by_cases h2 : b.toNat < a.toNat
      · simp [h1, h2] at hab
      · by_cases h3 : b.toNat < c.toNat
        · have hac : a.toNat < c.toNat := by omega
          simp [hac]
        · by_cases h4 : c.toNat < b.toNat
          · simp [h3, h4] at hbc
          · have h5 : ¬ a.toNat < c.toNat := by omega
            have h6 : ¬ c.toNat < a.toNat := by omega
            simp [h1, h2] at hab
            simp [h3, h4] at hbc
            simp [h5, h6]
            exact lexLe_trans as bs cs hab hbc

theorem lexLe_antisymm : ∀ a b : List Char,
    lexLe a b = true → lexLe b a = true → a = b
  | [], [], _, _ => rfl
  | [], _ :: _, _, hba => by cases hba
  | _ :: _, [], hab, _ => by cases hab
  | a :: as, b :: bs, hab, hba => by
    simp only [lexLe] at hab hba
    by_cases h1 : a.toNat < b.toNat
    · simp [h1, Nat.lt_asymm h1] at hba
    · by_cases h2 : b.toNat < a.toNat
      · simp [h2, Nat.lt_asymm h2] at hab
      · have ha : a = b := char_eq_of_toNat_eq (Nat.le_antisymm (Nat.not_lt.mp h2) (Nat.not_lt.mp h1))
        simp [h1, h2] at hab hba
        rw [ha, lexLe_antisymm as bs hab hba]

theorem jsStrLe_trans (a b c : String) (hab : jsStrLe a b = true)
    (hbc : jsStrLe b c = true) : jsStrLe a c = true :=
  lexLe_trans a.data b.data c.data hab hbc

theorem jsStrLe_total (a b : String) :
    jsStrLe a b = true ∨ jsStrLe b a = true :=
  lexLe_total a.data b.data

theorem jsStrLe_antisymm (a b : String) (hab : jsStrLe a b = true)
    (hba : jsStrLe b a = true) : a = b :=
  string_ext (lexLe_antisymm a.data b.data hab hba)

theorem mergeSort_jsStrLe_eq_of_perm {k₁ k₂ : List String}
    (h : k₁.Perm k₂) : k₁.mergeSort jsStrLe = k₂.mergeSort jsStrLe := by
  have hanti : IsAntisymm String (fun a b => jsStrLe a b = true) :=
    ⟨fun a b hab hba => jsStrLe_antisymm a b hab hba⟩
  exact @List.eq_of_perm_of_sorted String (fun a b => jsStrLe a b = true)
    hanti _ _
    ((List.mergeSort_perm k₁ _).trans (h.trans (List.mergeSort_perm k₂ _).symm))
    (List.sorted_mergeSort (fun a b c => jsStrLe_trans a b c)
      (fun a b => by simpa using jsStrLe_total a b) k₁)
    (List.sorted_mergeSort (fun a b c => jsStrLe_trans a b c)
      (fun a b => by simpa using jsStrLe_total a b) k₂)

theorem lookup_perm : ∀ {d₁ d₂ : List (String × String)}, d₁.Perm d₂ →
    (d₁.map Prod.fst).Nodup → ∀ k, d₁.lookup k = d₂.lookup k := by
  intro d₁ d₂ hperm
  induction hperm with
  | nil => intro _ _; rfl
  | cons x p ih =>
    intro hnd k
    obtain ⟨kx, vx⟩ := x
    rw [List.lookup_cons, List.lookup_cons]
    cases hk : k == kx with
    | true => rfl
    | false =>
      have h0 := hnd
      simp at h0
      exact ih h0.2 k
  | swap x y l =>
    intro hnd k
    obtain ⟨kx, vx⟩ := x
    obtain ⟨ky, vy⟩ := y
    have h0 := hnd
    simp at h0
    have hxy : ky ≠ kx := h0.1.1
    rw [List.lookup_cons, List.lookup_cons, List.lookup_cons,
      List.lookup_cons]
    cases hky : k == ky with
    | true =>
      have hkey : k = ky := by simpa using hky
      have hkx : (k == kx) = false := by
        rw [hkey]
        exact beq_eq_false_iff_ne.mpr hxy
      simp [hky, hkx]
    | false => simp [hky]
  | trans p₁ p₂ ih₁ ih₂ =>
    intro hnd k
    have hmid := (p₁.map Prod.fst).nodup hnd
    exact (ih₁ hnd k).trans (ih₂ hmid k)

theorem canonicalPayOS_perm {d₁ d₂ : List (String × String)}
    (h : d₁.Perm d₂) (hnd : (d₁.map Prod.fst).Nodup) :
    canonicalPayOS d₁ = canonicalPayOS d₂ := by
  unfold canonicalPayOS
  rw [mergeSort_jsStrLe_eq_of_perm (h.map Prod.fst)]
  have hfun : (fun k => k ++ "=" ++ ((d₁.lookup k).getD "undefined")) =
      (fun k => k ++ "=" ++ ((d₂.lookup k).getD "undefined")) := by
    funext k
    rw [lookup_perm h hnd k]
  rw [hfun]

/-- C5: the PayOS canonicalization (sort keys lexicographically, join as
key=value pairs with &) is order-independent: permuting the key/value
pairs of the data document (with its keys distinct, as for a JS object)
leaves the canonical string — and hence the computed signature and the
whole verifier result — unchanged. -/
theorem payos_canonicalization_order_independent
    (d₁ d₂ : List (String × String)) (hperm : d₁.Perm d₂)
    (hnd : (d₁.map Prod.fst).Nodup) :
    canonicalPayOS d₁ = canonicalPayOS d₂ ∧
    ∀ env sig, verifyPayOSCallback env (some d₁) sig =
      verifyPayOSCallback env (some d₂) sig := by
  have hc := canonicalPayOS_perm hperm hnd
  refine ⟨hc, fun env sig => ?_⟩
  cases sig with
  | none => rfl
  | some s =>
    unfold verifyPayOSCallback
    simp only [hc, lookup_perm hperm hnd "orderCode",
      lookup_perm hperm hnd "code"]

unseal List.merge List.mergeSort in
theorem payos_canonicalization_order_independent_witness :
    ([("a", "1"), ("b", "2")] : List (String × String)).Perm
        [("b", "2"), ("a", "1")] ∧
    canonicalPayOS [("a", "1"), ("b", "2")] =
      canonicalPayOS [("b", "2"), ("a", "1")] ∧
    ∀ env sig, verifyPayOSCallback env (some [("a", "1"), ("b", "2")]) sig =
      verifyPayOSCallback env (some [("b", "2"), ("a", "1")]) sig :=
  ⟨by decide,
    (payos_canonicalization_order_independent _ _ (by decide) (by decide)).1,
    (payos_canonicalization_order_independent _ _ (by decide) (by decide)).2⟩

/-! ## C10: missing provider secrets fall back to the empty key -/

/-- C10: when ZALOPAY_KEY2 / PAYOS_CHECKSUM_KEY are unset, the verifiers
do not reject: `env || ''` makes them compute the HMAC-SHA256 with the
empty string as key, so a callback whose mac/signature equals the digest
under the empty key is treated as authentic — and such a ZaloPay
callback proceeds into the state-mutating intake transaction (the
payment row is updated and the outbox grows by one row). -/
theorem missing_secret_empty_key_accepts (env : Env)
    (hz : env.zalopayKey2 = none) (hp : env.payosChecksumKey = none) :
    (∀ data mac : Option String, jsFalsy data = false → jsFalsy mac = false →
      ((verifyZaloPayCallback env data mac).success = true ↔
        mac.getD "" = env.hmacSha256Hex "" (data.getD ""))) ∧
    (∀ d sig, sig ≠ "" →
      ((verifyPayOSCallback env (some d) (some sig)).response =
          Response.payosSuccess ↔
        sig = env.hmacSha256Hex "" (canonicalPayOS d))) ∧
    (∀ data mac atid newId now db db',
      jsFalsy data = false → jsFalsy mac = false →
      mac.getD "" = env.hmacSha256Hex "" (data.getD "") →
      env.getAppTransId (data.getD "") = some atid →
      zaloOrderCode atid ≠ "" →
      handleSuccessPayment newId now (zaloOrderCode atid) db =
        Except.ok db' →
      handleCallback env newId now (CallbackBody.zalo data mac) db =
        (Response.zaloSuccess, db') ∧
      db'.outbox.length = db.outbox.length + 1) := by
  refine ⟨?_, ?_, ?_⟩
  · intro data mac hd hm
    have h := verifyZalo_success_iff env data mac
    rw [hz] at h
    simpa [hd, hm] using h
  · intro d sig hsig
    have hbeq : (sig == "") = false := beq_eq_false_iff_ne.mpr hsig
    unfold verifyPayOSCallback
    rw [hp]
    by_cases hv : sig = env.hmacSha256Hex "" (canonicalPayOS d)
    · have hne2 : env.hmacSha256Hex "" (canonicalPayOS d) ≠ "" :=
        fun h => hsig (hv.trans h)
      simp [hbeq, hv, hne2]
    · simp [hbeq, hv]
  · intro data mac atid newId now db db' hd hm hkey hat hne hok
    have hv : verifyZaloPayCallback env data mac =
        { orderCode := (env.getAppTransId (data.getD "")).map zaloOrderCode,
          success := true, response := Response.zaloSuccess } := by
      apply verifyZalo_success_shape env data mac hd hm
      rw [hz]
      exact hkey
    have hlen : db'.outbox.length = db.outbox.length + 1 := by
      unfold handleSuccessPayment at hok
      cases hf : db.payments.find?
          (fun q => q.orderCode == zaloOrderCode atid) with
      | none => rw [hf] at hok; cases hok
      | some p0 =>
        rw [hf] at hok
        cases hok
        simp
    refine ⟨?_, hlen⟩
    unfold handleCallback verifyAndParseCallback
    simp only [hv, hat, Option.map_some]
    have hfal : jsFalsy (some (zaloOrderCode atid)) = false := by
      simp [jsFalsy]
      exact hne
    simp [hfal, hok]

theorem missing_secret_empty_key_accepts_witness :
    envNoSecrets.zalopayKey2 = none ∧
    handleCallback envNoSecrets 7 9
        (CallbackBody.zalo (some "d") (some ":d")) pendingDb =
      (Response.zaloSuccess, mutatedDb) ∧
    mutatedDb.outbox.length = pendingDb.outbox.length + 1 :=
  ⟨rfl,
    ((missing_secret_empty_key_accepts envNoSecrets rfl rfl).2.2
      (some "d") (some ":d") "250101_ORD-1001" 7 9 pendingDb mutatedDb
      (by decide) (by decide) (by decide) (by decide) (by decide)
      (by rfl)).1,
    ((missing_secret_empty_key_accepts envNoSecrets rfl rfl).2.2
      (some "d") (some ":d") "250101_ORD-1001" 7 9 pendingDb mutatedDb
      (by decide) (by decide) (by decide) (by decide) (by decide)
      (by rfl)).2⟩

/-! ## C7: relay pass with the broker unreachable -/

theorem truncatedError_length (om : Option String) :
    (truncatedError om).length ≤ 500 := by
  cases om with
  | none => decide
  | some m =>
    show (if m.data.take 500 = [] then "Unknown error"
      else String.mk (m.data.take 500)).length ≤ 500
    by_cases h : m.data.take 500 = []
    · rw [if_pos h]
      decide
    · rw [if_neg h]
      show (m.data.take 500).length ≤ 500
      rw [List.length_take]
      exact Nat.min_le_left _ _

/-- C7: in a relay pass where every broker publish fails (each batch
entry having a mapped topic), every batch entry's stored row gets
retryCount incremented by exactly 1 and a bounded/truncated (≤ 500
character) lastError stored, none is marked published, rows outside the
batch are untouched, and no row is lost or duplicated (the list of row
ids is exactly preserved); every batch member is processed despite every
sibling failing — one failure aborts or rolls back nothing. -/
theorem publishEventData_fail_known (em : OutboxEntry → Option String)
    (now : Nat) (b r : OutboxEntry)
    (h : (topicMapping b.eventType).isSome = true) :
    publishEventData (fun _ => false) em now b r =
      { r with retryCount := r.retryCount + 1,
               lastError := some (truncatedError (em b)) } := by
  obtain ⟨t, ht⟩ := Option.isSome_iff_exists.mp h
  simp [publishEventData, ht]

theorem relay_pass_all_publishes_fail (errMsg : OutboxEntry → Option String)
    (now : Nat) (ob : List OutboxEntry)
    (hnd : (ob.map OutboxEntry.id).Nodup)
    (hknown : ∀ b ∈ acquireBatch ob,
      (topicMapping b.eventType).isSome = true) :
    (relayPass (fun _ => false) errMsg now ob).length = ob.length ∧
    (relayPass (fun _ => false) errMsg now ob).map OutboxEntry.id =
      ob.map OutboxEntry.id ∧
    (∀ b ∈ acquireBatch ob, ∀ r ∈ relayPass (fun _ => false) errMsg now ob,
      r.id = b.id →
        r.retryCount = b.retryCount + 1 ∧ r.published = false ∧
        r.lastError = some (truncatedError (errMsg b)) ∧
        (truncatedError (errMsg b)).length ≤ 500) ∧
    (∀ x ∈ ob, (∀ b ∈ acquireBatch ob, b.id ≠ x.id) →
      x ∈ relayPass (fun _ => false) errMsg now ob) := by
  rw [relayPass_eq_map]
  refine ⟨by simp, ?_, ?_, ?_⟩
  · rw [List.map_map]
    apply List.map_congr_left
    intro x _
    exact relayRow_id _ _ _ _ _
  · intro b hb r hr hid
    obtain ⟨x, hx, rfl⟩ := List.mem_map.mp hr
    have hxid : x.id = b.id := by
      rw [← relayRow_id (fun _ => false) errMsg now (acquireBatch ob) x]
      exact hid
    have hbob := (acquireBatch_mem hb).1
    have hxb : x = b := List.inj_on_of_nodup_map hnd hx hbob hxid
    subst hxb
    rw [relayRow_single _ _ _ _ _ (acquireBatch_pairwise_ne hnd) hb,
      publishEventData_fail_known errMsg now x x (hknown x hb)]
    exact ⟨rfl, (acquireBatch_mem hb).2.1, rfl, truncatedError_length _⟩
  · intro x hx hnb
    exact List.mem_map.mpr
      ⟨x, hx, relayRow_eq_self _ _ _ _ _ (fun b hb => hnb b hb)⟩

unseal List.merge List.mergeSort in
theorem relay_pass_all_publishes_fail_witness :
    failedPendingEntry.retryCount = pendingEntry.retryCount + 1 ∧
    failedPendingEntry.published = false ∧
    failedPendingEntry.lastError =
      some (truncatedError (some "broker down")) ∧
    (truncatedError (some "broker down")).length ≤ 500 :=
  (relay_pass_all_publishes_fail (fun _ => some "broker down") 11
      [pendingEntry, publishedEntry] (by decide) (by decide)).2.2.1
    pendingEntry (by decide) failedPendingEntry (by decide) (by decide)

/-! ## C8: outbox entry lifecycle invariants (corrected) -/

/-- C8 counterexample: the relay's mark-published write (`update({where:
{id}})`) is not a conditional update on published=false: applied to a
row that is already published=true with publishedAt=5, it mutates the
row again, overwriting publishedAt with the new pass's time 10. -/
theorem mark_published_unconditional_counterexample :
    publishEventStep (fun _ => true) (fun _ => none) 10 publishedEntry
      [publishedEntry] = [remarkedEntry] ∧
    remarkedEntry ≠ publishedEntry ∧
    publishedEntry.published = true := by decide

theorem relayPass_map_id (pub : OutboxEntry → Bool)
    (em : OutboxEntry → Option String) (now : Nat)
    (ob : List OutboxEntry) :
    (relayPass pub em now ob).map OutboxEntry.id =
      ob.map OutboxEntry.id := by
  rw [relayPass_eq_map, List.map_map]
  apply List.map_congr_left
  intro x _
  exact relayRow_id _ _ _ _ _

theorem relay_fixes_published_row (pub : OutboxEntry → Bool)
    (em : OutboxEntry → Option String) (now : Nat)
    {ob : List OutboxEntry} (hnd : (ob.map OutboxEntry.id).Nodup)
    {e : OutboxEntry} (he : e ∈ ob) (hp : e.published = true) :
    relayRow pub em now (acquireBatch ob) e = e := by
  apply relayRow_eq_self
  intro b hb hbe
  have hbob := (acquireBatch_mem hb).1
  have hbeq : b = e := List.inj_on_of_nodup_map hnd hbob he hbe
  subst hbeq
  rw [(acquireBatch_mem hb).2.1] at hp
  cases hp

theorem applyOp_intake_ok_outbox (newId now : Nat) (oc : String) (db : DB) :
    (applyOp (Op.intakeOk newId now oc) db).outbox = db.outbox ∨
    ∃ p, (applyOp (Op.intakeOk newId now oc) db).outbox =
      db.outbox ++ [completedOutboxEntry newId now p] := by
  cases hf : db.payments.find? (fun q => q.orderCode == oc) with
  | none =>
    left
    simp [applyOp, handleSuccessPayment, hf, Except.toOption]
  | some p0 =>
    right
    refine ⟨markCompleted now p0, ?_⟩
    simp [applyOp, handleSuccessPayment, hf, Except.toOption]

theorem applyOp_intake_fail_outbox (newId now : Nat) (oc : String) (db : DB) :
    (applyOp (Op.intakeFail newId now oc) db).outbox = db.outbox ∨
    ∃ p, (applyOp (Op.intakeFail newId now oc) db).outbox =
      db.outbox ++ [failedOutboxEntry newId now p] := by
  cases hf : db.payments.find? (fun q => q.orderCode == oc) with
  | none =>
    left
    simp [applyOp, handleFailedPayment, hf, Except.toOption]
  | some p0 =>
    right
    refine ⟨markFailed now p0, ?_⟩
    simp [applyOp, handleFailedPayment, hf, Except.toOption]

theorem applyOps_cons (op : Op) (rest : List Op) (db : DB) :
    applyOps (op :: rest) db = applyOps rest (applyOp op db) := rfl

theorem pass_ops_ids_in : ∀ (ops : List Op), (∀ o ∈ ops, isPass o) →
    ∀ (db : DB), ∀ e' ∈ (applyOps ops db).outbox,
      OutboxEntry.id e' ∈ db.outbox.map OutboxEntry.id
  | [], _, db, e', he' => List.mem_map_of_mem _ he'
  | op :: rest, hpass, db, e', he' => by
    rw [applyOps_cons] at he'
    have hmid := pass_ops_ids_in rest
      (fun o ho => hpass o (List.mem_cons_of_mem _ ho)) (applyOp op db) e' he'
    cases op with
    | intakeOk newId now oc =>
      have := hpass _ (List.mem_cons_self _ _)
      simp [isPass] at this
    | intakeFail newId now oc =>
      have := hpass _ (List.mem_cons_self _ _)
      simp [isPass] at this
    | relay pub em now =>
      rw [show (applyOp (Op.relay pub em now) db).outbox =
        relayPass pub em now db.outbox from rfl, relayPass_map_id] at hmid
      exact hmid
    | sweep cutoff =>
      obtain ⟨x, hx, hxid⟩ := List.mem_map.mp hmid
      have hx' : x ∈ List.filter (fun y => !sweepable cutoff y) db.outbox := hx
      exact List.mem_map.mpr ⟨x, List.mem_of_mem_filter hx', hxid⟩

theorem pass_ops_retry_mono : ∀ (ops : List Op), (∀ o ∈ ops, isPass o) →
    ∀ (db : DB), (db.outbox.map OutboxEntry.id).Nodup →
    ∀ e ∈ db.outbox, ∀ e' ∈ (applyOps ops db).outbox, e'.id = e.id →
      e.retryCount ≤ e'.retryCount ∧ (e.published = true → e' = e)
  | [], _, db, hnd, e, he, e', he', hid => by
    have heq : e' = e := List.inj_on_of_nodup_map hnd he' he hid
    subst heq
    exact ⟨Nat.le_refl _, fun _ => rfl⟩
  | op :: rest, hpass, db, hnd, e, he, e', he', hid => by
    rw [applyOps_cons] at he'
    have hrest : ∀ o ∈ rest, isPass o :=
      fun o ho => hpass o (List.mem_cons_of_mem _ ho)
    cases op with
    | intakeOk newId now oc =>
      have := hpass _ (List.mem_cons_self _ _)
      simp [isPass] at this
    | intakeFail newId now oc =>
      have := hpass _ (List.mem_cons_self _ _)
      simp [isPass] at this
    | relay pub em now =>
      have hout : (applyOp (Op.relay pub em now) db).outbox =
          relayPass pub em now db.outbox := rfl
      have hmidnd : ((applyOp (Op.relay pub em now) db).outbox.map
          OutboxEntry.id).Nodup := by
        rw [hout, relayPass_map_id]
        exact hnd
      have hm : relayRow pub em now (acquireBatch db.outbox) e ∈
          (applyOp (Op.relay pub em now) db).outbox := by
        rw [hout, relayPass_eq_map]
        exact List.mem_map_of_mem _ he
      have hIH := pass_ops_retry_mono rest hrest
        (applyOp (Op.relay pub em now) db) hmidnd
        (relayRow pub em now (acquireBatch db.outbox) e) hm e' he'
        (by rw [relayRow_id]; exact hid)
      constructor
      · exact Nat.le_trans (relayRow_retry_mono pub em now _ e) hIH.1
      · intro hp
        have hfix : relayRow pub em now (acquireBatch db.outbox) e = e :=
          relay_fixes_published_row pub em now hnd he hp
        have h2 := hIH.2 (by rw [hfix]; exact hp)
        rw [hfix] at h2
        exact h2
    | sweep cutoff =>
      by_cases hsw : sweepable cutoff e = true
      · exfalso
        have hin := pass_ops_ids_in rest hrest
          (applyOp (Op.sweep cutoff) db) e' he'
        obtain ⟨x, hx, hxid⟩ := List.mem_map.mp hin
        have hx' : x ∈ List.filter (fun y => !sweepable cutoff y) db.outbox :=
          hx
        have hxdb : x ∈ db.outbox := List.mem_of_mem_filter hx'
        have hxe : x = e := List.inj_on_of_nodup_map hnd hxdb he
          (by rw [hxid, hid])
        subst hxe
        have hmem := List.mem_filter.mp hx'
        rw [hsw] at hmem
        simp at hmem
      · have hmidnd : ((applyOp (Op.sweep cutoff) db).outbox.map
            OutboxEntry.id).Nodup :=
          ((List.filter_sublist _).map OutboxEntry.id).nodup hnd
        have hem : e ∈ (applyOp (Op.sweep cutoff) db).outbox :=
          List.mem_filter.mpr ⟨he, by simp [hsw]⟩
        exact pass_ops_retry_mono rest hrest _ hmidnd e hem e' he' hid

/-- C8 amended: the mark-published write matches on id only (it is not
conditional on published=false — see the counterexample); nevertheless,
under sequential operation, for any single intake / relay / sweeper
operation (with distinct row ids and a fresh id for intake inserts): a
row with published=true is never mutated — any row with its id after the
operation is the row itself, and the row survives except when a sweep
deletes it during retention (published ∧ publishedAt < cutoff); the
invariant published=true → publishedAt set is preserved; retryCount
never decreases, including across any sequence of relay and sweeper
passes. -/
theorem outbox_published_immutable_amended (op : Op) (db : DB)
    (hnd : (db.outbox.map OutboxEntry.id).Nodup)
    (hfresh : opFresh op db) :
    (∀ e ∈ db.outbox, e.published = true →
      (∀ e' ∈ (applyOp op db).outbox, e'.id = e.id → e' = e) ∧
      (e ∈ (applyOp op db).outbox ∨
        ∃ cutoff, op = Op.sweep cutoff ∧ sweepable cutoff e = true)) ∧
    ((∀ e ∈ db.outbox, e.published = true → e.publishedAt ≠ none) →
      ∀ e' ∈ (applyOp op db).outbox, e'.published = true →
        e'.publishedAt ≠ none) ∧
    (∀ e ∈ db.outbox, ∀ e' ∈ (applyOp op db).outbox, e'.id = e.id →
      e.retryCount ≤ e'.retryCount) ∧
    (∀ ops : List Op, (∀ o ∈ ops, isPass o) →
      ∀ e ∈ db.outbox, ∀ e' ∈ (applyOps ops db).outbox, e'.id = e.id →
        e.retryCount ≤ e'.retryCount ∧ (e.published = true → e' = e)) := by
  refine ⟨?_, ?_, ?_, fun ops hpass => pass_ops_retry_mono ops hpass db hnd⟩
  · intro e he hp
    cases op with
    | intakeOk newId now oc =>
      rcases applyOp_intake_ok_outbox newId now oc db with hsh | ⟨p, hsh⟩
      · constructor
        · intro e' he' hid
          rw [hsh] at he'
          exact List.inj_on_of_nodup_map hnd he' he hid
        · left
          rw [hsh]
          exact he
      · constructor
        · intro e' he' hid
          rw [hsh] at he'
          rcases List.mem_append.mp he' with h1 | h1
          · exact List.inj_on_of_nodup_map hnd h1 he hid
          · exfalso
            have he'' : e' = completedOutboxEntry newId now p :=
              List.mem_singleton.mp h1
            have hnew : e'.id = newId := by rw [he'']; rfl
            have hin : newId ∈ db.outbox.map OutboxEntry.id := by
              rw [← hnew, hid]
              exact List.mem_map_of_mem _ he
            exact hfresh hin
        · left
          rw [hsh]
          exact List.mem_append_left _ he
    | intakeFail newId now oc =>
      rcases applyOp_intake_fail_outbox newId now oc db with hsh | ⟨p, hsh⟩
      · constructor
        · intro e' he' hid
          rw [hsh] at he'
          exact List.inj_on_of_nodup_map hnd he' he hid
        · left
          rw [hsh]
          exact he
      · constructor
        · intro e' he' hid
          rw [hsh] at he'
          rcases List.mem_append.mp he' with h1 | h1
          · exact List.inj_on_of_nodup_map hnd h1 he hid
          · exfalso
            have he'' : e' = failedOutboxEntry newId now p :=
              List.mem_singleton.mp h1
            have hnew : e'.id = newId := by rw [he'']; rfl
            have hin : newId ∈ db.outbox.map OutboxEntry.id := by
              rw [← hnew, hid]
              exact List.mem_map_of_mem _ he
            exact hfresh hin
        · left
          rw [hsh]
          exact List.mem_append_left _ he
    | relay pub em now =>
      have hout : (applyOp (Op.relay pub em now) db).outbox =
          relayPass pub em now db.outbox := rfl
      constructor
      · intro e' he' hid
        rw [hout, relayPass_eq_map] at he'
        obtain ⟨x, hx, rfl⟩ := List.mem_map.mp he'
        have hxid : x.id = e.id := by
          rw [← relayRow_id pub em now (acquireBatch db.outbox) x]
          exact hid
        have hxe : x = e := List.inj_on_of_nodup_map hnd hx he hxid
        subst hxe
        exact relay_fixes_published_row pub em now hnd hx hp
      · left
        rw [hout, relayPass_eq_map]
        exact List.mem_map.mpr
          ⟨e, he, relay_fixes_published_row pub em now hnd he hp⟩
    | sweep cutoff =>
      constructor
      · intro e' he' hid
        have he'2 : e' ∈ List.filter (fun y => !sweepable cutoff y)
            db.outbox := he'
        exact List.inj_on_of_nodup_map hnd (List.mem_of_mem_filter he'2)
          he hid
      · by_cases hsw : sweepable cutoff e = true
        · right
          exact ⟨cutoff, rfl, hsw⟩
        · left
          exact show e ∈ List.filter (fun y => !sweepable cutoff y)
            db.outbox from List.mem_filter.mpr ⟨he, by simp [hsw]⟩
  · intro hinv e' he' hp'
    cases op with
    | intakeOk newId now oc =>
      rcases applyOp_intake_ok_outbox newId now oc db with hsh | ⟨p, hsh⟩
      · rw [hsh] at he'
        exact hinv e' he' hp'
      · rw [hsh] at he'
        rcases List.mem_append.mp he' with h1 | h1
        · exact hinv e' h1 hp'
        · have he'' : e' = completedOutboxEntry newId now p :=
            List.mem_singleton.mp h1
          rw [he''] at hp'
          cases hp'
    | intakeFail newId now oc =>
      rcases applyOp_intake_fail_outbox newId now oc db with hsh | ⟨p, hsh⟩
      · rw [hsh] at he'
        exact hinv e' he' hp'
      · rw [hsh] at he'
        rcases List.mem_append.mp he' with h1 | h1
        · exact hinv e' h1 hp'
        · have he'' : e' = failedOutboxEntry newId now p :=
            List.mem_singleton.mp h1
          rw [he''] at hp'
          cases hp'
    | relay pub em now =>
      have hout : (applyOp (Op.relay pub em now) db).outbox =
          relayPass pub em now db.outbox := rfl
      rw [hout, relayPass_eq_map] at he'
      obtain ⟨x, hx, rfl⟩ := List.mem_map.mp he'
      exact relayRow_pubAt pub em now _ x (hinv x hx) hp'
    | sweep cutoff =>
      have he'2 : e' ∈ List.filter (fun y => !sweepable cutoff y)
          db.outbox := he'
      exact hinv e' (List.mem_of_mem_filter he'2) hp'
  · intro e he e' he' hid
    cases op with
    | intakeOk newId now oc =>
      rcases applyOp_intake_ok_outbox newId now oc db with hsh | ⟨p, hsh⟩
      · rw [hsh] at he'
        have heq : e' = e := List.inj_on_of_nodup_map hnd he' he hid
        rw [heq]
      · rw [hsh] at he'
        rcases List.mem_append.mp he' with h1 | h1
        · have heq : e' = e := List.inj_on_of_nodup_map hnd h1 he hid
          rw [heq]
        · exfalso
          have he'' : e' = completedOutboxEntry newId now p :=
            List.mem_singleton.mp h1
          have hnew : e'.id = newId := by rw [he'']; rfl
          have hin : newId ∈ db.outbox.map OutboxEntry.id := by
            rw [← hnew, hid]
            exact List.mem_map_of_mem _ he
          exact hfresh hin
    | intakeFail newId now oc =>
      rcases applyOp_intake_fail_outbox newId now oc db with hsh | ⟨p, hsh⟩
      · rw [hsh] at he'
        have heq : e' = e := List.inj_on_of_nodup_map hnd he' he hid
        rw [heq]
      · rw [hsh] at he'
        rcases List.mem_append.mp he' with h1 | h1
        · have heq : e' = e := List.inj_on_of_nodup_map hnd h1 he hid
          rw [heq]
        · exfalso
          have he'' : e' = failedOutboxEntry newId now p :=
            List.mem_singleton.mp h1
          have hnew : e'.id = newId := by rw [he'']; rfl
          have hin : newId ∈ db.outbox.map OutboxEntry.id := by
            rw [← hnew, hid]
            exact List.mem_map_of_mem _ he
          exact hfresh hin
    | relay pub em now =>
      have hout : (applyOp (Op.relay pub em now) db).outbox =
          relayPass pub em now db.outbox := rfl
      rw [hout, relayPass_eq_map] at he'
      obtain ⟨x, hx, rfl⟩ := List.mem_map.mp he'
      have hxid : x.id = e.id := by
        rw [← relayRow_id pub em now (acquireBatch db.outbox) x]
        exact hid
      have hxe : x = e := List.inj_on_of_nodup_map hnd hx he hxid
      subst hxe
      exact relayRow_retry_mono pub em now _ x
    | sweep cutoff =>
      have he'2 : e' ∈ List.filter (fun y => !sweepable cutoff y)
          db.outbox := he'
      have heq : e' = e := List.inj_on_of_nodup_map hnd
        (List.mem_of_mem_filter he'2) he hid
      rw [heq]

unseal List.merge List.mergeSort in
theorem outbox_published_immutable_amended_witness :
    publishedEntry ∈
      (applyOp (Op.relay (fun _ => true) (fun _ => none) 10)
        { payments := [], outbox := [publishedEntry, pendingEntry] }).outbox ∨
    ∃ cutoff, Op.relay (fun _ => true) (fun _ => none) 10 =
      Op.sweep cutoff ∧ sweepable cutoff publishedEntry = true :=
  ((outbox_published_immutable_amended
      (Op.relay (fun _ => true) (fun _ => none) 10)
      { payments := [], outbox := [publishedEntry, pendingEntry] }
      (by decide) trivial).1
    publishedEntry (by decide) (by decide)).2
